import Mathlib

/-!
Verification of the commitz commit-message generator (`cmd/root.go`).

The Go source is shallowly embedded: strings are Lean `String`s, and the
byte/rune-level operations of the Go standard library (`strings.Contains`,
`strings.Fields`, `strings.Split`, `strings.TrimSpace`, `strings.TrimPrefix`,
`strings.TrimSuffix`, `strings.ToLower`, `strings.SplitN`) are modelled as
executable functions over `String.data : List Char`.  Go's `unicode.IsSpace`
and `strings.ToLower` are modelled on their ASCII behaviour, which is the
only range the program's string constants exercise.
-/

namespace Commitz

/-- ASCII fragment of Go's `unicode.IsSpace`. -/
def isSpaceGo (c : Char) : Bool :=
  c = ' ' || c = '\t' || c = '\n' || c = '\x0b' || c = '\x0c' || c = '\r'

/-- Go `strings.TrimSpace`. -/
def trimGo (s : String) : String :=
  ⟨((s.data.dropWhile isSpaceGo).reverse.dropWhile isSpaceGo).reverse⟩

/-- Go `strings.ToLower` (ASCII case mapping). -/
def lowerStr (s : String) : String :=
  ⟨s.data.map Char.toLower⟩

/-- Whether the char list `p` is a prefix of `s` (Go `strings.HasPrefix` core). -/
def isPreOf : List Char → List Char → Bool
  | [], _ => true
  | _ :: _, [] => false
  | p :: ps, c :: cs => p = c && isPreOf ps cs

/-- Whether `pat` occurs as a contiguous run inside `s` (Go `strings.Contains` core). -/
def hasSubstr : List Char → List Char → Bool
  | [], pat => pat.isEmpty
  | c :: tail, pat => isPreOf pat (c :: tail) || hasSubstr tail pat

/-- Go `strings.Contains s sub`. -/
def containsStr (s sub : String) : Bool :=
  hasSubstr s.data sub.data

/-- Go `strings.HasPrefix`. -/
def startsWithGo (s pre : String) : Bool :=
  isPreOf pre.data s.data

/-- Go `strings.HasSuffix`. -/
def endsWithGo (s suf : String) : Bool :=
  isPreOf suf.data.reverse s.data.reverse

/-- Go `strings.TrimPrefix`. -/
def trimPrefixGo (s pre : String) : String :=
  if startsWithGo s pre then ⟨s.data.drop pre.data.length⟩ else s

/-- Go `strings.TrimSuffix`. -/
def trimSuffixGo (s suf : String) : String :=
  if endsWithGo s suf then ⟨s.data.take (s.data.length - suf.data.length)⟩ else s

/-- Splitting a char list at every occurrence of `sep` (Go `strings.Split` with a
one-char separator). -/
def splitOnChar (sep : Char) : List Char → List (List Char)
  | [] => [[]]
  | c :: cs =>
    let rest := splitOnChar sep cs
    if c = sep then [] :: rest
    else
      match rest with
      | [] => [[c]]
      | r :: rs => (c :: r) :: rs

/-- Go `strings.Split(s, "\n")`. -/
def splitLinesGo (s : String) : List String :=
  (splitOnChar '\n' s.data).map String.mk

/-- Splitting a char list at every char satisfying `p`. -/
def splitWhen (p : Char → Bool) : List Char → List (List Char)
  | [] => [[]]
  | c :: cs =>
    let rest := splitWhen p cs
    if p c then [] :: rest
    else
      match rest with
      | [] => [[c]]
      | r :: rs => (c :: r) :: rs

/-- Go `strings.Fields`: the maximal runs of non-whitespace chars. -/
def fieldsGo (s : String) : List String :=
  ((splitWhen isSpaceGo s.data).filter (· ≠ [])).map String.mk

/-- Go `strings.Join(lines, "\n")`. -/
def joinNL : List String → String
  | [] => ""
  | [x] => x
  | x :: y :: xs => x ++ "\n" ++ joinNL (y :: xs)

/-! ## The data model: commit types (`commitTypes` in `root.go`) -/

structure CommitType where
  type : String
  emoji : String
  description : String
deriving DecidableEq

def commitTypes : List CommitType :=
  [⟨"feat", "✨", "A new feature"⟩,
   ⟨"fix", "🐛", "A bug fix"⟩,
   ⟨"docs", "📝", "Documentation only changes"⟩,
   ⟨"style", "💄", "Changes that don't affect code meaning"⟩,
   ⟨"refactor", "♻️", "Code change that neither fixes a bug nor adds a feature"⟩,
   ⟨"perf", "⚡", "Performance improvements"⟩,
   ⟨"test", "✅", "Adding or correcting tests"⟩,
   ⟨"build", "🔨", "Changes to build system or dependencies"⟩,
   ⟨"ci", "👷", "Changes to CI configuration"⟩,
   ⟨"chore", "🧹", "Other changes that don't modify src or test files"⟩]

/-! ## Classification (`detectCommitType`, root.go lines 464-481) -/

/-- Rule-1 marker of `detectCommitType`: `strings.Contains(diff, "test/") ||
strings.Contains(diff, "_test.go")`. -/
def hasTestMarker (diff : String) : Bool :=
  containsStr diff "test/" || containsStr diff "_test.go"

/-- Rule-2 marker: `README`, `.md` or `docs/` in the raw diff text. -/
def hasDocsMarker (diff : String) : Bool :=
  containsStr diff "README" || containsStr diff ".md" || containsStr diff "docs/"

/-- Rule-3 marker: `fix` or `bug` in the lower-cased diff text. -/
def hasFixMarker (diff : String) : Bool :=
  containsStr (lowerStr diff) "fix" || containsStr (lowerStr diff) "bug"

/-- Rule-4 marker: `feat`, `add ` or `new ` in the lower-cased diff text. -/
def hasFeatMarker (diff : String) : Bool :=
  containsStr (lowerStr diff) "feat" || containsStr (lowerStr diff) "add " ||
    containsStr (lowerStr diff) "new "

/-- `detectCommitType` from root.go: fixed-priority substring rules, default "chore". -/
def detectCommitType (diff : String) : String :=
  if hasTestMarker diff then "test"
  else if hasDocsMarker diff then "docs"
  else if hasFixMarker diff then "fix"
  else if hasFeatMarker diff then "feat"
  else "chore"

/-! ## Composition (`buildCommitMessage`, root.go lines 514-519) -/

/-- `buildCommitMessage` from root.go: `"emoji type(scope): summary"` when the scope
is non-empty, else `"emoji type: summary"`. -/
def buildCommitMessage (emoji commitType scope summary : String) : String :=
  if scope ≠ "" then emoji ++ commitType ++ "(" ++ scope ++ "): " ++ summary
  else emoji ++ commitType ++ ": " ++ summary

/-! ## Touched-file extraction and smart summaries
(`generateSmartSummary`, root.go lines 252-347, and `getBaseName`, lines 349-358) -/

/-- One step of the touched-file scan in `generateSmartSummary` (root.go lines
260-271): on a `+++`/`---` header line, take the second whitespace field, skip
`/dev/null`, strip a `b/` and then an `a/` leading segment, and append the name
unless it is empty or already collected. -/
def extractFileStep (acc : List String) (line : String) : List String :=
  if startsWithGo line "+++" || startsWithGo line "---" then
    let parts := fieldsGo line
    if 2 ≤ parts.length then
      if parts.getD 1 "" ≠ "/dev/null" then
        let fileName := trimPrefixGo (trimPrefixGo (parts.getD 1 "") "b/") "a/"
        if fileName ≠ "" ∧ fileName ∉ acc then acc ++ [fileName] else acc
      else acc
    else acc
  else acc

/-- The `modifiedFiles` list accumulated by `generateSmartSummary` over the
diff's lines. -/
def extractModifiedFiles (diff : String) : List String :=
  (splitLinesGo diff).foldl extractFileStep []

/-- `getBaseName` from root.go: last `/`-separated segment, with a trailing
`.go`, `.js`, `.ts` and `.md` suffix stripped in that order. -/
def getBaseName (filePath : String) : String :=
  let parts := splitOnChar '/' filePath.data
  let fileName : String := ⟨parts.getLastD []⟩
  let f1 := trimSuffixGo fileName ".go"
  let f2 := trimSuffixGo f1 ".js"
  let f3 := trimSuffixGo f2 ".ts"
  trimSuffixGo f3 ".md"

/-- `generateSmartSummary` from root.go: per-type fixed-priority suggestion rules
over the lower-cased diff and the touched-file list. -/
def generateSmartSummary (diff commitType : String) : String :=
  let diffLower := lowerStr diff
  let modifiedFiles := extractModifiedFiles diff
  if commitType = "feat" then
    if containsStr diffLower "interactive" then "add interactive mode"
    else if containsStr diffLower "api" then "add API endpoints"
    else
      match modifiedFiles with
      | f :: _ => "add " ++ getBaseName f ++ " functionality"
      | [] => "add new feature"
  else if commitType = "fix" then
    if containsStr diffLower "bug" || containsStr diffLower "error" then
      "fix bug in error handling"
    else
      match modifiedFiles with
      | f :: _ => "fix issue in " ++ getBaseName f
      | [] => "fix bug"
  else if commitType = "docs" then
    if containsStr diffLower "readme" then "update README documentation"
    else "update documentation"
  else if commitType = "refactor" then
    match modifiedFiles with
    | f :: _ => "refactor " ++ getBaseName f
    | [] => "refactor code structure"
  else if commitType = "test" then "add/update tests"
  else if commitType = "style" then "improve code formatting"
  else if commitType = "perf" then "improve performance"
  else if commitType = "build" then
    if containsStr diffLower "go.mod" || containsStr diffLower "go.sum" then
      "update dependencies"
    else "update build configuration"
  else if commitType = "ci" then "update CI configuration"
  else if commitType = "chore" then
    if containsStr diffLower "cleanup" then "cleanup code"
    else "update project files"
  else "update changes"

/-- Claim C7 as worded: the second field of a header line with a SINGLE leading
`a/` or `b/` segment stripped (the source instead strips `b/` and then `a/`
sequentially, so this differs on fields starting with `b/a/`). -/
def touchedFilesClaimStep (acc : List String) (line : String) : List String :=
  if startsWithGo line "+++" || startsWithGo line "---" then
    match (fieldsGo line)[1]? with
    | none => acc
    | some field2 =>
      if field2 = "/dev/null" then acc
      else
        let fileName :=
          if startsWithGo field2 "a/" then (⟨field2.data.drop 2⟩ : String)
          else if startsWithGo field2 "b/" then (⟨field2.data.drop 2⟩ : String)
          else field2
        if fileName ≠ "" ∧ fileName ∉ acc then acc ++ [fileName] else acc
  else acc

/-- Touched-file extraction exactly as claim C7 words it. -/
def touchedFilesClaim (diff : String) : List String :=
  (splitLinesGo diff).foldl touchedFilesClaimStep []

/-- Claim C7, amended: like `touchedFilesClaimStep` but stripping a leading `b/`
and then a leading `a/` segment, as the source does. -/
def touchedFilesAmendedStep (acc : List String) (line : String) : List String :=
  if startsWithGo line "+++" || startsWithGo line "---" then
    match (fieldsGo line)[1]? with
    | none => acc
    | some field2 =>
      if field2 = "/dev/null" then acc
      else
        let fileName := trimPrefixGo (trimPrefixGo field2 "b/") "a/"
        if fileName ≠ "" ∧ fileName ∉ acc then acc ++ [fileName] else acc
  else acc

/-- Touched-file extraction as amended claim C7 words it. -/
def touchedFilesAmended (diff : String) : List String :=
  (splitLinesGo diff).foldl touchedFilesAmendedStep []

/-! ## Scope extraction (`extractScopeFromBranch`, root.go lines 483-498) -/

/-- The pure core of `extractScopeFromBranch`, as a function of the raw
`git branch --show-current` output: trim it, and if it contains a `/`, split at
the first `/` (Go `strings.SplitN(branchName, "/", 2)`) and return the trimmed
first part; else return `""`. -/
def extractScopeFromBranchName (raw : String) : String :=
  let branchName := trimGo raw
  if containsStr branchName "/" then
    let parts : List String :=
      [⟨branchName.data.takeWhile (· ≠ '/')⟩,
       ⟨(branchName.data.dropWhile (· ≠ '/')).drop 1⟩]
    if 1 < parts.length then trimGo (parts.getD 0 "") else ""
  else ""

/-! ## Summary prompt validation (`generateSummaryInteractive`, root.go 369-400) -/

/-- The `validate` closure of `generateSummaryInteractive`: accepts exactly the
inputs whose Go `len` (UTF-8 byte count) is between 3 and 72. -/
def summaryValidate (input : String) : Bool :=
  if input.utf8ByteSize < 3 then false
  else if 72 < input.utf8ByteSize then false
  else true

/-- What `generateSummaryInteractive` returns for an accepted prompt entry
(root.go line 399): the entry with surrounding whitespace trimmed. -/
def interactiveSummaryResult (raw : String) : String :=
  trimGo raw

/-! ## Body appending (`addDescriptionInteractive`, root.go lines 434-439) -/

/-- The pure tail of `addDescriptionInteractive`: trim the accumulated body
text; if non-empty, append it to the header after a blank line. -/
def appendBody (message bodyText : String) : String :=
  let body := trimGo bodyText
  if body ≠ "" then message ++ "\n\n" ++ body else message

/-! ## Non-interactive confirmation (`confirmCommitInteractive`, root.go 442-449) -/

/-- The non-interactive branch of `confirmCommitInteractive` as a function of
the operator's response: trim, lower-case, and consent iff `"y"` or empty. -/
def confirmNonInteractive (response : String) : Bool :=
  let confirm := lowerStr (trimGo response)
  confirm = "y" || confirm = ""

/-! ## Change-type tags (the closed set of §3 of the spec, backing `commitTypes`) -/

inductive ChangeTypeTag where
  | feat | fix | docs | style | refactor | perf | test | build | ci | chore
deriving DecidableEq

/-- The display string of each tag, as listed in `commitTypes`. -/
def tagString : ChangeTypeTag → String
  | .feat => "feat"
  | .fix => "fix"
  | .docs => "docs"
  | .style => "style"
  | .refactor => "refactor"
  | .perf => "perf"
  | .test => "test"
  | .build => "build"
  | .ci => "ci"
  | .chore => "chore"

/-! ## Re-parsing a rendered message (claim C3) -/

/-- Removing an expected leading run of chars: `some` of the remainder when
`p` is a prefix, else `none`. -/
def stripPrefixChars : List Char → List Char → Option (List Char)
  | [], rest => some rest
  | _ :: _, [] => none
  | p :: ps, c :: cs => if p = c then stripPrefixChars ps cs else none

/-- Splitting a char list at the first occurrence of `target`: the chars before
it and the chars after it, or `none` when absent. -/
def breakAtChar (target : Char) : List Char → Option (List Char × List Char)
  | [] => none
  | c :: cs =>
    if c = target then some ([], cs)
    else
      match breakAtChar target cs with
      | none => none
      | some pp => some (c :: pp.1, pp.2)

/-- Modelled from the spec: the repository contains no message parser, so the
re-parser implied by §8's round-trip property ("composing a message and
re-parsing the type/scope/summary from its rendered text recovers the original
fields") is modelled here from the rendered shape of §3 — strip the emoji
prefix, split at the first `:` (which must be followed by a space), read
everything after `": "` as the summary, and split the part before the `:` at
the first `(` into type and a `)`-terminated scope when present. -/
def parseCommitMessage (emoji msg : String) : Option (String × String × String) :=
  (stripPrefixChars emoji.data msg.data).bind fun rest =>
    (breakAtChar ':' rest).bind fun pp =>
      match pp.2 with
      | [] => none
      | c :: su =>
        if c = ' ' then
          match breakAtChar '(' pp.1 with
          | none => some (⟨pp.1⟩, "", ⟨su⟩)
          | some ti =>
            if ti.2.getLast? = some ')' then
              some (⟨ti.1⟩, ⟨ti.2.dropLast⟩, ⟨su⟩)
            else none
        else none

/-! ## The interactive pipeline (`generateCommitMessage`, root.go lines 106-171,
with `interactive = true`) -/

/-- The operator's responses at the five interactive prompts; `none` models a
prompt the operator cancelled (promptui returning an error). `descrBody` is the
list of body lines typed after an accepted description confirmation. -/
structure PromptOutcomes where
  typeSel : Option (Fin commitTypes.length)
  scopeSel : Option String
  summaryEntry : Option String
  descrConfirm : Option String
  descrBody : List String
  commitConfirm : Option String

/-- How one run of the program ends: `os.Exit code`, a `git commit` with the
given message, or a normal return without committing. -/
inductive RunOutcome where
  | exited : Nat → RunOutcome
  | committed : String → RunOutcome
  | finishedNoCommit : RunOutcome
deriving DecidableEq

/-- The interactive flow of `generateCommitMessage` (non-empty staged diff,
`interactive` flag set), as a function of the prompt outcomes:
`selectCommitTypeInteractive` exits 0 on cancellation; `selectScopeInteractive`
maps cancellation and any `Skip`-containing selection to the empty scope and
strips a `" (from branch)"` suffix; the summary prompt exits 0 on cancellation
and trims the accepted entry; the description confirmation appends the body
only on a literal lower-cased `"y"`; `dryRun` returns without committing; and
the final confirmation commits on `"y"` or an empty answer, cancelling
otherwise. -/
def interactiveFlow (useEmoji dryRun : Bool) (po : PromptOutcomes) : RunOutcome :=
  match po.typeSel with
  | none => .exited 0
  | some idx =>
    let sel := commitTypes.get idx
    let selectedEmoji := if useEmoji then sel.emoji ++ " " else ""
    let selectedScope :=
      match po.scopeSel with
      | none => ""
      | some result =>
        if containsStr result "Skip" then ""
        else trimSuffixGo result " (from branch)"
    match po.summaryEntry with
    | none => .exited 0
    | some raw =>
      let summary := trimGo raw
      let baseMessage := buildCommitMessage selectedEmoji sel.type selectedScope summary
      let message :=
        match po.descrConfirm with
        | none => baseMessage
        | some r =>
          if lowerStr r = "y" then appendBody baseMessage (joinNL po.descrBody)
          else baseMessage
      if dryRun then .finishedNoCommit
      else
        match po.commitConfirm with
        | none => .finishedNoCommit
        | some r =>
          if lowerStr r = "y" || r = "" then .committed message
          else .finishedNoCommit

/-- A run in which the operator cancels exactly the scope prompt and answers
every other prompt. -/
def scopeCancelledRun : PromptOutcomes where
  typeSel := some ⟨0, by decide⟩
  scopeSel := none
  summaryEntry := some "add login"
  descrConfirm := some "n"
  descrBody := []
  commitConfirm := some "y"

end Commitz

namespace Commitz

/-- Claim C1: `detectCommitType` applies the fixed-priority substring rules in
order with first match winning — a test-path marker (`test/` or `_test.go`)
gives `test` regardless of all other content; otherwise a documentation marker
(`README`, `.md`, `docs/`) gives `docs`; otherwise `fix`/`bug` in the
lower-cased text gives `fix`; otherwise `feat`/`add `/`new ` in the lower-cased
text gives `feat`; otherwise `chore`; and `detectCommitType "" = "chore"`. -/
theorem detectCommitType_priority (diff : String) :
    (hasTestMarker diff = true → detectCommitType diff = "test") ∧
    (hasTestMarker diff = false → hasDocsMarker diff = true →
      detectCommitType diff = "docs") ∧
    (hasTestMarker diff = false → hasDocsMarker diff = false →
      hasFixMarker diff = true → detectCommitType diff = "fix") ∧
    (hasTestMarker diff = false → hasDocsMarker diff = false →
      hasFixMarker diff = false → hasFeatMarker diff = true →
      detectCommitType diff = "feat") ∧
    (hasTestMarker diff = false → hasDocsMarker diff = false →
      hasFixMarker diff = false → hasFeatMarker diff = false →
      detectCommitType diff = "chore") ∧
    detectCommitType "" = "chore" := by
  refine ⟨?_, ?_, ?_, ?_, ?_, by decide⟩ <;> intros <;> simp_all [detectCommitType]

/-- Concrete instantiation of `detectCommitType_priority`: a diff containing a
test marker together with docs and fix markers still classifies as `test`. -/
theorem detectCommitType_priority_witness :
    detectCommitType "fix bug in foo_test.go README.md" = "test" :=
  (detectCommitType_priority "fix bug in foo_test.go README.md").1 (by decide)

/-- Claim C2: `buildCommitMessage` renders `"<emoji><type>(<scope>): <summary>"`
when the scope is non-empty and `"<emoji><type>: <summary>"` when it is empty;
in particular `buildCommitMessage "" "feat" "" "x" = "feat: x"` and
`buildCommitMessage "✨ " "feat" "auth" "add login" = "✨ feat(auth): add login"`. -/
theorem buildCommitMessage_shape (emoji commitType scope summary : String) :
    (scope ≠ "" →
      buildCommitMessage emoji commitType scope summary =
        emoji ++ commitType ++ "(" ++ scope ++ "): " ++ summary) ∧
    (scope = "" →
      buildCommitMessage emoji commitType scope summary =
        emoji ++ commitType ++ ": " ++ summary) ∧
    buildCommitMessage "" "feat" "" "x" = "feat: x" ∧
    buildCommitMessage "✨ " "feat" "auth" "add login" = "✨ feat(auth): add login" := by
  refine ⟨?_, ?_, by decide, by decide⟩ <;> intro h <;> simp [buildCommitMessage, h]

/-- Concrete instantiation of `buildCommitMessage_shape` at a non-empty scope. -/
theorem buildCommitMessage_shape_witness :
    buildCommitMessage "" "fix" "auth" "patch" = "fix(auth): patch" :=
  (buildCommitMessage_shape "" "fix" "auth" "patch").1 (by decide)

/-- Claim C5, failing input: the entry `"   "` (three spaces) passes the 3-to-72
validator of the interactive summary prompt, yet the summary that ends up in the
composed message is its trim — the empty string — so the composed message has an
empty summary, violating the stated invariant. -/
theorem summaryValidate_trim_bug :
    summaryValidate "   " = true ∧
    interactiveSummaryResult "   " = "" ∧
    buildCommitMessage "" "feat" "" (interactiveSummaryResult "   ") = "feat: " := by
  decide

/-- Claim C6 counterexample: for the diff `"+++ b/main.py"` classified as `feat`,
the code suggests `"add main.py functionality"` — the `.py` extension is NOT
stripped, while the claim's basename (extension stripped) would give
`"add main functionality"`. -/
theorem generateSmartSummary_feat_counterexample :
    generateSmartSummary "+++ b/main.py" "feat" = "add main.py functionality" ∧
    generateSmartSummary "+++ b/main.py" "feat" ≠ "add main functionality" := by
  decide

/-- Claim C6, amended: for a diff classified as `feat`, `generateSmartSummary`
returns "add interactive mode" if the lower-cased diff contains "interactive";
else "add API endpoints" if it contains "api"; else, if any file was touched,
"add {b} functionality" where `b` is the first touched file with its path
stripped and a trailing `.go`, `.js`, `.ts` or `.md` suffix stripped (other
extensions are kept); else "add new feature". -/
theorem generateSmartSummary_feat_rules (diff : String) :
    (containsStr (lowerStr diff) "interactive" = true →
      generateSmartSummary diff "feat" = "add interactive mode") ∧
    (containsStr (lowerStr diff) "interactive" = false →
      containsStr (lowerStr diff) "api" = true →
      generateSmartSummary diff "feat" = "add API endpoints") ∧
    (∀ f rest, containsStr (lowerStr diff) "interactive" = false →
      containsStr (lowerStr diff) "api" = false →
      extractModifiedFiles diff = f :: rest →
      generateSmartSummary diff "feat" = "add " ++ getBaseName f ++ " functionality") ∧
    (containsStr (lowerStr diff) "interactive" = false →
      containsStr (lowerStr diff) "api" = false →
      extractModifiedFiles diff = [] →
      generateSmartSummary diff "feat" = "add new feature") := by
  refine ⟨?_, ?_, ?_, ?_⟩ <;> intros <;> simp_all [generateSmartSummary]

/-- Concrete instantiation of `generateSmartSummary_feat_rules` on a diff
touching `cmd/root.go`. -/
theorem generateSmartSummary_feat_rules_witness :
    generateSmartSummary "+++ b/cmd/root.go" "feat" =
      "add " ++ getBaseName "cmd/root.go" ++ " functionality" :=
  (generateSmartSummary_feat_rules "+++ b/cmd/root.go").2.2.1 "cmd/root.go" []
    (by decide) (by decide) (by decide)

/-- Claim C7 counterexample: on the header line `"+++ b/a/util.go"` the code
strips `b/` and then also `a/`, collecting `"util.go"`, whereas the claim's
single leading-prefix strip would collect `"a/util.go"`. -/
theorem touchedFiles_counterexample :
    extractModifiedFiles "+++ b/a/util.go" = ["util.go"] ∧
    touchedFilesClaim "+++ b/a/util.go" = ["a/util.go"] ∧
    extractModifiedFiles "+++ b/a/util.go" ≠ touchedFilesClaim "+++ b/a/util.go" := by
  decide

theorem extractFileStep_eq_amended (acc : List String) (line : String) :
    extractFileStep acc line = touchedFilesAmendedStep acc line := by
  unfold extractFileStep touchedFilesAmendedStep
  by_cases hs : (startsWithGo line "+++" || startsWithGo line "---") = true
  · simp only [hs, if_true]
    rcases hps : fieldsGo line with _ | ⟨a, _ | ⟨b, bs⟩⟩ <;>
      simp [List.getD]
  · simp only [hs, if_false, Bool.false_eq_true]

/-- Claim C7, amended: touched-file extraction scans exactly the `+++`/`---`
lines, takes the second whitespace-delimited field, skips the `/dev/null`
sentinel, strips a leading `b/` and then a leading `a/` segment (so `b/a/x`
becomes `x`), skips empty names, and keeps first-occurrence order with
duplicates removed; a file named in both the `---` and `+++` headers is listed
once, and `/dev/null` is ignored. -/
theorem extractModifiedFiles_spec (diff : String) :
    extractModifiedFiles diff = touchedFilesAmended diff ∧
    extractModifiedFiles "--- a/cmd/root.go\n+++ b/cmd/root.go" = ["cmd/root.go"] ∧
    extractModifiedFiles "--- /dev/null\n+++ b/new.go" = ["new.go"] := by
  refine ⟨?_, by decide, by decide⟩
  unfold extractModifiedFiles touchedFilesAmended
  rw [funext fun acc => funext fun line => extractFileStep_eq_amended acc line]

/-- Claim C9 counterexample: on the branch-name string `"x /y"` the code returns
the trimmed `"x"`, not the literal text `"x "` standing before the first `/`. -/
theorem extractScope_counterexample :
    extractScopeFromBranchName "x /y" = "x" ∧
    extractScopeFromBranchName "x /y" ≠ "x " := by
  decide

/-- Claim C9, amended: the raw branch-source output is whitespace-trimmed; if
the trimmed name contains a `/` the result is the text before the first `/`
with surrounding whitespace trimmed, else there is no scope; in particular
`"feature/login-page"` yields `"feature"` and `"main"` yields no scope. -/
theorem extractScope_rules (raw : String) :
    (containsStr (trimGo raw) "/" = true →
      extractScopeFromBranchName raw =
        trimGo ⟨(trimGo raw).data.takeWhile (· ≠ '/')⟩) ∧
    (containsStr (trimGo raw) "/" = false → extractScopeFromBranchName raw = "") ∧
    extractScopeFromBranchName "feature/login-page" = "feature" ∧
    extractScopeFromBranchName "main" = "" := by
  refine ⟨?_, ?_, by decide, by decide⟩ <;> intro h <;>
    simp [extractScopeFromBranchName, h, List.getD]

/-- Concrete instantiation of `extractScope_rules` on `"feature/login-page"`. -/
theorem extractScope_rules_witness :
    extractScopeFromBranchName "feature/login-page" =
      trimGo ⟨(trimGo "feature/login-page").data.takeWhile (· ≠ '/')⟩ :=
  (extractScope_rules "feature/login-page").1 (by decide)

/-- Claim C8: `appendBody` trims the body text; if the trim is empty (including
the empty string and whitespace-only input) the header is returned unchanged,
otherwise the result is exactly `header ++ "\n\n" ++ trimmed body`. -/
theorem appendBody_spec (message bodyText : String) :
    appendBody message bodyText =
      (if trimGo bodyText = "" then message
       else message ++ "\n\n" ++ trimGo bodyText) ∧
    appendBody message "" = message ∧
    appendBody message " \t\n " = message ∧
    appendBody "feat: x" " hello\nworld " = "feat: x\n\nhello\nworld" := by
  have h1 : trimGo "" = "" := by decide
  have h2 : trimGo " \t\n " = "" := by decide
  refine ⟨?_, by simp [appendBody, h1], by simp [appendBody, h2], by decide⟩
  by_cases h : trimGo bodyText = "" <;> simp [appendBody, h]

/-- Claim C10: the non-interactive confirmation consents exactly when the
response, trimmed and lower-cased, is `"y"` or empty; pressing Enter alone
(empty response) consents, while `"yes"` or `"n"` cancels. -/
theorem confirmNonInteractive_spec (response : String) :
    (confirmNonInteractive response = true ↔
      (lowerStr (trimGo response) = "y" ∨ lowerStr (trimGo response) = "")) ∧
    confirmNonInteractive "" = true ∧
    confirmNonInteractive "y" = true ∧
    confirmNonInteractive " Y " = true ∧
    confirmNonInteractive "yes" = false ∧
    confirmNonInteractive "n" = false := by
  refine ⟨?_, by decide, by decide, by decide, by decide, by decide⟩
  simp [confirmNonInteractive]

/-- Concrete instantiation of `confirmNonInteractive_spec`: `" Y "` consents. -/
theorem confirmNonInteractive_spec_witness :
    confirmNonInteractive " Y " = true :=
  (confirmNonInteractive_spec " Y ").1.mpr (Or.inl (by decide))

theorem tagString_no_sep (tag : ChangeTypeTag) :
    ':' ∉ (tagString tag).data ∧ '(' ∉ (tagString tag).data := by
  cases tag <;> exact ⟨by decide, by decide⟩

theorem stripPrefixChars_append (p r : List Char) :
    stripPrefixChars p (p ++ r) = some r := by
  induction p with
  | nil => rfl
  | cons c cs ih => simp [stripPrefixChars, ih]

theorem breakAtChar_of_not_mem (target : Char) (l : List Char) (h : target ∉ l) :
    breakAtChar target l = none := by
  induction l with
  | nil => rfl
  | cons c cs ih =>
    simp only [List.mem_cons, not_or] at h
    have hc : ¬ c = target := fun heq => h.1 heq.symm
    simp [breakAtChar, hc, ih h.2]

theorem breakAtChar_append (target : Char) (p r : List Char) (h : target ∉ p) :
    breakAtChar target (p ++ target :: r) = some (p, r) := by
  induction p with
  | nil => simp [breakAtChar]
  | cons c cs ih =>
    simp only [List.mem_cons, not_or] at h
    have hc : ¬ c = target := fun heq => h.1 heq.symm
    simp [breakAtChar, hc, ih h.2]

/-- Claim C3: for every emoji, every tag of the closed type set, and every scope
containing neither `:` nor `(`, re-parsing the rendered message recovers the
type, scope and summary exactly. -/
theorem parse_build_roundTrip (emoji : String) (tag : ChangeTypeTag)
    (scope summary : String)
    (h1 : ':' ∉ scope.data) (h2 : '(' ∉ scope.data) :
    parseCommitMessage emoji (buildCommitMessage emoji (tagString tag) scope summary) =
      some (tagString tag, scope, summary) := by
  obtain ⟨ht1, ht2⟩ := tagString_no_sep tag
  have hlp : ("(" : String).data = ['('] := rfl
  have hrp : ("): " : String).data = [')', ':', ' '] := rfl
  have hco : (": " : String).data = [':', ' '] := rfl
  by_cases hsc : scope = ""
  · subst hsc
    have hdata : (buildCommitMessage emoji (tagString tag) "" summary).data =
        emoji.data ++ ((tagString tag).data ++ ':' :: ' ' :: summary.data) := by
      simp [buildCommitMessage, String.data_append, hco]
    unfold parseCommitMessage
    rw [hdata, stripPrefixChars_append, Option.some_bind,
      breakAtChar_append ':' _ _ ht1, Option.some_bind]
    simp [breakAtChar_of_not_mem '(' _ ht2]
  · have hdata : (buildCommitMessage emoji (tagString tag) scope summary).data =
        emoji.data ++
          (((tagString tag).data ++ '(' :: (scope.data ++ [')'])) ++
            ':' :: ' ' :: summary.data) := by
      simp [buildCommitMessage, hsc, String.data_append, hlp, hrp]
    have hpre : ':' ∉ (tagString tag).data ++ '(' :: (scope.data ++ [')']) := by
      simp only [List.mem_append, List.mem_cons, List.mem_singleton, not_or]
      exact ⟨ht1, by decide, h1, by decide⟩
    unfold parseCommitMessage
    rw [hdata, stripPrefixChars_append, Option.some_bind,
      breakAtChar_append ':' _ _ hpre, Option.some_bind]
    simp [breakAtChar_append '(' _ _ ht2, List.getLast?_concat, List.dropLast_concat]

/-- Concrete instantiation of `parse_build_roundTrip`: the spec's worked example
`"✨ feat(auth): add login"` parses back to its three fields. -/
theorem parse_build_roundTrip_witness :
    parseCommitMessage "✨ " (buildCommitMessage "✨ " (tagString .feat) "auth" "add login") =
      some (tagString .feat, "auth", "add login") :=
  parse_build_roundTrip "✨ " .feat "auth" "add login" (by decide) (by decide)

/-- Claim C4 counterexample: in a run where the operator cancels the scope
prompt but answers every other prompt, the program does NOT abort — it proceeds
all the way to creating the commit `"feat: add login"`. -/
theorem interactiveFlow_scopeCancel_counterexample :
    scopeCancelledRun.scopeSel = none ∧
    interactiveFlow false false scopeCancelledRun = .committed "feat: add login" := by
  exact ⟨rfl, by decide⟩

/-- Claim C4, amended: cancelling the type-selection or summary prompt
terminates the run with exit code 0 and no commit; cancelling the final
confirmation never commits (the run ends normally without a commit); but
cancelling the scope prompt behaves exactly like selecting "Skip (no scope)"
and the flow continues, and cancelling the description confirmation behaves
exactly like declining it with "n" and the flow continues. -/
theorem interactiveFlow_cancel_rules (useEmoji dryRun : Bool) (po : PromptOutcomes) :
    (po.typeSel = none → interactiveFlow useEmoji dryRun po = .exited 0) ∧
    (po.summaryEntry = none → po.typeSel ≠ none →
      interactiveFlow useEmoji dryRun po = .exited 0) ∧
    (po.commitConfirm = none → ∀ s, interactiveFlow useEmoji dryRun po ≠ .committed s) ∧
    (po.scopeSel = none →
      interactiveFlow useEmoji dryRun po =
        interactiveFlow useEmoji dryRun { po with scopeSel := some "Skip (no scope)" }) ∧
    (po.descrConfirm = none →
      interactiveFlow useEmoji dryRun po =
        interactiveFlow useEmoji dryRun { po with descrConfirm := some "n" }) := by
  have hskip : containsStr "Skip (no scope)" "Skip" = true := by decide
  have hn : ¬ lowerStr "n" = "y" := by decide
  refine ⟨?_, ?_, ?_, ?_, ?_⟩
  · intro h; simp [interactiveFlow, h]
  · intro h hty
    rcases ht : po.typeSel with _ | idx
    · exact absurd ht hty
    · simp [interactiveFlow, ht, h]
  · intro h s
    rcases ht : po.typeSel with _ | idx <;>
      rcases hs : po.summaryEntry with _ | raw <;>
      simp [interactiveFlow, ht, hs, h]
  · intro h
    rcases ht : po.typeSel with _ | idx <;>
      simp [interactiveFlow, ht, h, hskip]
  · intro h
    rcases ht : po.typeSel with _ | idx <;>
      rcases hs : po.summaryEntry with _ | raw <;>
      simp [interactiveFlow, ht, hs, h, hn]

/-- Concrete instantiation of `interactiveFlow_cancel_rules`: cancelling the
type prompt exits with code 0. -/
theorem interactiveFlow_cancel_rules_witness :
    interactiveFlow false false
      { typeSel := none, scopeSel := none, summaryEntry := none,
        descrConfirm := none, descrBody := [], commitConfirm := none } = .exited 0 :=
  (interactiveFlow_cancel_rules false false _).1 rfl

end Commitz
